import Mathlib

/-!
# NFC tag text codec and memory-I/O sequencer: a shallow embedding

This development embeds the NDEF/TLV text codec and the two tag-memory
adapters of the rfid-audio-player repository in Lean and proves the
testable properties stated for them.

Conventions of the embedding:
* Python `bytes` values are `List Nat`, each element intended `< 256`.
  Text inputs are represented by their UTF-8 byte sequences and language
  codes by their ASCII byte sequences, so `text.encode("utf-8")` and
  `language.encode("ascii")` are identities here.
* A Python `bytes([...])` constructor raises `ValueError` when an element
  exceeds 255; functions whose source can raise this way return `Option`,
  with `none` standing for the raised/failed outcome.
* Block indices are `Int` (Python ints); `%` on `Int` agrees with
  Python's `%` for the positive modulus 4 used here.
* The external tag transport (the `pirc522` driver: authenticate,
  read-unit, write-unit) is passed in as function arguments, following
  the interface boundary of the specification, and instrumented runs
  record the trace of transport calls so that sequencing claims can be
  stated.
-/

namespace RfidTag

/-- Configuration constant `TAG_NDEF_START_BLOCK` from `config.py`. -/
def TAG_NDEF_START_BLOCK : Int := 4

/-- Configuration constant `TAG_NDEF_BLOCK_COUNT` from `config.py`. -/
def TAG_NDEF_BLOCK_COUNT : Nat := 16

/-- Configuration constant `TAG_NDEF_START_PAGE` from
`src/rfid_audio_player/config.py`. -/
def TAG_NDEF_START_PAGE : Nat := 4

/-- Configuration constant `TAG_NDEF_PAGE_COUNT` from
`src/rfid_audio_player/config.py`. -/
def TAG_NDEF_PAGE_COUNT : Nat := 32

/-- `BLOCK_SIZE` from `write_tag.py`. -/
def BLOCK_SIZE : Nat := 16

/-- The ASCII bytes of the default language code `"en"`. -/
def langEn : List Nat := [0x65, 0x6E]

/-! ## Encoding (`write_tag.build_text_ndef_tlv`,
`Reader._create_text_record`, `Reader._create_tlv_wrapper`) -/

/-- `write_tag.build_text_ndef_tlv(text, language)`.

Builds status byte, payload, short-record NDEF header and the TLV wrapper
in one function.  The two Python `bytes([...])` constructors embed the
payload length and the record length as single bytes and raise
`ValueError` when the respective length exceeds 255; that raised outcome
is `none` here. -/
def build_text_ndef_tlv (text language : List Nat) : Option (List Nat) :=
  let status := language.length &&& 0x3F
  let payload := status :: (language ++ text)
  if payload.length > 255 then none
  else
    let ndef_record := [0xD1, 0x01, payload.length, 0x54] ++ payload
    if ndef_record.length > 255 then none
    else some ([0x03, ndef_record.length] ++ ndef_record ++ [0xFE])

/-- `Reader._create_text_record(text, lang_code)` from
`src/rfid_audio_player/rfid_reader.py`.

The body is wrapped in `try/except` returning `None`; the only failing
operation on byte-list inputs is `bytes([header, type_length,
payload_length])` when the payload length exceeds 255. -/
def create_text_record (text lang_code : List Nat) : Option (List Nat) :=
  let status := lang_code.length &&& 0x3F
  let payload := status :: (lang_code ++ text)
  if payload.length > 255 then none
  else some ([0xD1, 0x01, payload.length, 0x54] ++ payload)

/-- `Reader._create_tlv_wrapper(ndef_message)` from
`src/rfid_audio_player/rfid_reader.py`: short or long length form, `0xFE`
terminator, zero-padding to the 4-byte page boundary.  (The long form's
`to_bytes(2, "big")` is total for every message this codec produces,
whose length is at most 260.) -/
def create_tlv_wrapper (ndef_message : List Nat) : List Nat :=
  let n := ndef_message.length
  let tlv :=
    if n < 255 then [0x03, n] ++ ndef_message
    else [0x03, 0xFF, n / 256 % 256, n % 256] ++ ndef_message
  let tlv := tlv ++ [0xFE]
  let padding := (4 - tlv.length % 4) % 4
  tlv ++ List.replicate padding 0x00

/-! ## Sectored memory adapter (`Reader._read_blocks` in `rfid_reader.py`,
the write loop of `write_tag.write_text_to_tag`, and
`write_tag.build_block_payloads`) -/

/-- The sector-trailer test of `Reader._read_blocks`:
`block >= 0 and (block + 1) % 4 == 0`. -/
def isTrailer (block : Int) : Bool :=
  decide (0 ≤ block) && decide ((block + 1) % 4 = 0)

/-- Outcome of one sectored read/write operation, instrumented with the
trace of transport calls: the blocks on which authentication was invoked,
the blocks on which a unit read/write was issued, and the operation's
result. -/
structure SectoredRun where
  auths : List Int
  unitOps : List Int
  result : Option (List Nat)
  deriving Repr, DecidableEq

/-- The block loop of `Reader._read_blocks`: skip sector trailers,
authenticate before each surviving block (`util.auth` per block), read
the block, abort with `None` on the first authentication or read error,
else concatenate the payloads.  `auth b = true` models a truthy
`auth_error`; `(readUnit b).1 = true` models a truthy `read_error`. -/
def readBlocksGo (auth : Int → Bool) (readUnit : Int → Bool × List Nat) :
    List Int → List Nat → SectoredRun
  | [], payload => ⟨[], [], some payload⟩
  | b :: bs, payload =>
    if isTrailer b then readBlocksGo auth readUnit bs payload
    else if auth b then ⟨[b], [], none⟩
    else
      let (read_error, data) := readUnit b
      if read_error then ⟨[b], [b], none⟩
      else
        let rest := readBlocksGo auth readUnit bs (payload ++ data)
        ⟨b :: rest.auths, b :: rest.unitOps, rest.result⟩

/-- `Reader._read_blocks(uid, blocks)`: `if not blocks: return None`,
then the block loop starting from an empty payload. -/
def readBlocks (auth : Int → Bool) (readUnit : Int → Bool × List Nat)
    (blocks : List Int) : SectoredRun :=
  if blocks = [] then ⟨[], [], none⟩
  else readBlocksGo auth readUnit blocks []

/-- `write_tag.generate_block_sequence()`:
`range(TAG_NDEF_START_BLOCK, TAG_NDEF_START_BLOCK + TAG_NDEF_BLOCK_COUNT)`. -/
def generate_block_sequence : List Int :=
  (List.range TAG_NDEF_BLOCK_COUNT).map (fun i => TAG_NDEF_START_BLOCK + i)

/-- The chunking loop of `write_tag.build_block_payloads`: walk the block
sequence, skip sector trailers (`(block + 1) % 4 == 0`, no sign test
here), slice the next 16 bytes of the buffer for each surviving block and
zero-pad a short final chunk. -/
def buildChunksGo (buffer : List Nat) : List Int → Nat → List (Int × List Nat)
  | [], _ => []
  | b :: bs, offset =>
    if (b + 1) % 4 = 0 then buildChunksGo buffer bs offset
    else
      let chunk := (buffer.drop offset).take BLOCK_SIZE
      let chunk := chunk ++ List.replicate (BLOCK_SIZE - chunk.length) 0x00
      (b, chunk) :: buildChunksGo buffer bs (offset + BLOCK_SIZE)

/-- `write_tag.build_block_payloads(text)`.  The TLV build can raise (see
`build_text_ndef_tlv`), which propagates: `none` here.  The Python
`buffer[:len(tlv)] = tlv` slice assignment grows the buffer when the TLV
is larger than the chunk capacity, which `tlv ++ replicate (n - tlv.length) 0`
reproduces through truncated `Nat` subtraction. -/
def build_block_payloads (text : List Nat) : Option (List (Int × List Nat)) :=
  match build_text_ndef_tlv text langEn with
  | none => none
  | some tlv =>
    let blocks := generate_block_sequence
    let data_blocks := blocks.filter (fun b => !decide ((b + 1) % 4 = 0))
    let buffer := tlv ++ List.replicate (data_blocks.length * BLOCK_SIZE - tlv.length) 0x00
    some (buildChunksGo buffer blocks 0)

/-- Outcome of the per-tag write loop of `write_tag.write_text_to_tag`,
instrumented with the trace of transport calls. -/
structure SectoredWriteRun where
  auths : List Int
  unitOps : List Int
  success : Bool
  deriving Repr, DecidableEq

/-- The write loop of `write_tag.write_text_to_tag`: for every prepared
`(block, data)` pair, force re-authentication (`util.do_auth(block,
force=True)`), then write; stop with failure on the first authentication
or write error.  `doAuth b = true` models a truthy `auth_error`;
`writeUnit b d = true` models a truthy `write_error`. -/
def writeBlocksGo (doAuth : Int → Bool) (writeUnit : Int → List Nat → Bool) :
    List (Int × List Nat) → SectoredWriteRun
  | [] => ⟨[], [], true⟩
  | (b, d) :: rest =>
    if doAuth b then ⟨[b], [], false⟩
    else if writeUnit b d then ⟨[b], [b], false⟩
    else
      let r := writeBlocksGo doAuth writeUnit rest
      ⟨b :: r.auths, b :: r.unitOps, r.success⟩

/-! ## Paged memory adapter (`Reader._read_pages`, `Reader._write_pages`,
`Reader._write_ntag_page` in `src/rfid_audio_player/rfid_reader.py`) -/

/-- Outcome of one paged read, instrumented with the trace of page
indices at which a transport read command was issued. -/
structure PagedReadRun where
  reads : List Nat
  result : Option (List Nat)
  deriving Repr, DecidableEq

/-- The page loop of `Reader._read_pages`: issue a transport read at
`current_page`, abort with `None` on error, else accumulate the returned
chunk and advance by 4 pages (one read command returns 4 pages), while
`current_page < final_page`. -/
def readPagesGo (readCmd : Nat → Bool × List Nat) (final_page : Nat)
    (current_page : Nat) (payload : List Nat) : PagedReadRun :=
  if current_page < final_page then
    let (error, data) := readCmd current_page
    if error then ⟨[current_page], none⟩
    else
      let rest := readPagesGo readCmd final_page (current_page + 4) (payload ++ data)
      ⟨current_page :: rest.reads, rest.result⟩
  else ⟨[], some payload⟩
  termination_by final_page - current_page

/-- `Reader._read_pages(uid, start_page, page_count)`: guard
`page_count <= 0`, run the page loop, and trim the accumulated payload to
exactly `page_count * 4` bytes. -/
def readPages (readCmd : Nat → Bool × List Nat) (start_page page_count : Nat) :
    PagedReadRun :=
  if page_count = 0 then ⟨[], none⟩
  else
    let run := readPagesGo readCmd (start_page + page_count) start_page []
    { run with result := run.result.map (fun p => p.take (page_count * 4)) }

/-- `Reader._write_ntag_page(page_num, data)`: rejects data that is not
exactly 4 bytes, otherwise issues the transport-level NTAG write command
whose acknowledgement is modelled by `transport page data`. -/
def write_ntag_page (transport : Nat → List Nat → Bool) (page_num : Nat)
    (data : List Nat) : Bool :=
  if data.length ≠ 4 then false else transport page_num data

/-- Outcome of one paged write, instrumented with the `(page, bytes)`
pairs handed to `_write_ntag_page`. -/
structure PagedWriteRun where
  writes : List (Nat × List Nat)
  success : Bool
  deriving Repr, DecidableEq

/-- The page loop of `Reader._write_pages`: for `i` in
`range(page_count)`, slice 4 bytes at offset `i * 4`, zero-pad a short
final slice, write it to page `start_page + i`, and return `False` at the
first failed page write. -/
def writePagesGo (transport : Nat → List Nat → Bool) (data : List Nat)
    (start_page : Nat) : Nat → Nat → PagedWriteRun
  | _, 0 => ⟨[], true⟩
  | i, n + 1 =>
    let page_num := start_page + i
    let chunk := (data.drop (i * 4)).take 4
    let page_data := chunk ++ List.replicate (4 - chunk.length) 0x00
    if write_ntag_page transport page_num page_data then
      let rest := writePagesGo transport data start_page (i + 1) n
      ⟨(page_num, page_data) :: rest.writes, rest.success⟩
    else ⟨[(page_num, page_data)], false⟩

/-- `Reader._write_pages(uid, data, start_page)`:
`page_count = (len(data) + 3) // 4` pages, written in order. -/
def writePages (transport : Nat → List Nat → Bool) (data : List Nat)
    (start_page : Nat) : PagedWriteRun :=
  writePagesGo transport data start_page 0 ((data.length + 3) / 4)

/-- The encode-and-write tail of `Reader.write_text`: build the text
record — on failure report `False` without touching any page — else wrap
it in the TLV container and write the pages starting at
`TAG_NDEF_START_PAGE`. -/
def writeTextRun (transport : Nat → List Nat → Bool)
    (text lang_code : List Nat) : PagedWriteRun :=
  match create_text_record text lang_code with
  | none => ⟨[], false⟩
  | some ndef_message =>
    writePages transport (create_tlv_wrapper ndef_message) TAG_NDEF_START_PAGE

/-! ## Decoding (`Reader._read_ndef_text_payload` TLV scan and
`Reader._parse_ndef_text_record` in `rfid_reader.py`)

Python subscripting `xs[i]` raises `IndexError` when `i` is out of
range.  To let "never raises" be a theorem rather than a modelling
artifact, every subscript is embedded as `pyGet`, which produces the
distinguished `exn` outcome exactly when Python would raise; `try/except`
blocks of the source are embedded as a catch of that outcome. -/

/-- Result of a piece of Python code that may raise an uncaught
exception. -/
inductive PyResult (α : Type) where
  | ok (val : α)
  | exn
  deriving Repr, DecidableEq

/-- Python `xs[i]` on a byte sequence: the byte, or `IndexError`. -/
def pyGet (xs : List Nat) (i : Nat) : PyResult Nat :=
  if h : i < xs.length then .ok xs[i] else .exn

/-- Python `xs[i : i + n]`: slicing never raises and clamps at the end of
the sequence. -/
def pySlice (xs : List Nat) (i n : Nat) : List Nat :=
  (xs.drop i).take n

/-- Python `int.from_bytes(bs, "big")` (total; an empty sequence gives
0). -/
def int_from_bytes_big (bs : List Nat) : Nat :=
  bs.foldl (fun acc b => acc * 256 + b) 0

/-- Python `bs.decode("ascii", errors="ignore")`, at the level of the
resulting code points: bytes over 127 are dropped. -/
def asciiDecodeLossy (bs : List Nat) : List Nat :=
  bs.filter (fun b => decide (b < 0x80))

/-- Whether a code point is whitespace for Python's `str.strip()`
(`str.isspace`). -/
def pyIsSpace (c : Nat) : Bool :=
  decide ((9 ≤ c ∧ c ≤ 13) ∨ (28 ≤ c ∧ c ≤ 31) ∨ c = 32 ∨ c = 0x85 ∨
    c = 0xA0 ∨ c = 0x1680 ∨ (0x2000 ≤ c ∧ c ≤ 0x200A) ∨ c = 0x2028 ∨
    c = 0x2029 ∨ c = 0x202F ∨ c = 0x205F ∨ c = 0x3000)

/-- Python `s.strip()` on a sequence of code points. -/
def pyStrip (cs : List Nat) : List Nat :=
  ((cs.dropWhile pyIsSpace).reverse.dropWhile pyIsSpace).reverse

/-- Whether a byte is a UTF-8 continuation byte. -/
def isCont (b : Nat) : Bool :=
  decide (0x80 ≤ b ∧ b ≤ 0xBF)

/-- Python `bs.decode("utf-8", errors="ignore")`, at the level of the
resulting code points: well-formed sequences decode, ill-formed maximal
subparts are dropped and decoding resumes at the next byte. -/
def utf8DecodeLossy : List Nat → List Nat
  | [] => []
  | b :: rest =>
    if b < 0x80 then b :: utf8DecodeLossy rest
    else if 0xC2 ≤ b ∧ b ≤ 0xDF then
      match hr : rest with
      | [] => []
      | c1 :: rest1 =>
        if isCont c1 then
          ((b - 0xC0) * 0x40 + (c1 - 0x80)) :: utf8DecodeLossy rest1
        else utf8DecodeLossy rest
    else if 0xE0 ≤ b ∧ b ≤ 0xEF then
      match hr : rest with
      | [] => []
      | c1 :: rest1 =>
        if (b = 0xE0 && decide (0xA0 ≤ c1 ∧ c1 ≤ 0xBF)) ||
           (b = 0xED && decide (0x80 ≤ c1 ∧ c1 ≤ 0x9F)) ||
           (b ≠ 0xE0 && b ≠ 0xED && isCont c1) then
          match hr1 : rest1 with
          | [] => []
          | c2 :: rest2 =>
            if isCont c2 then
              ((b - 0xE0) * 0x1000 + (c1 - 0x80) * 0x40 + (c2 - 0x80)) ::
                utf8DecodeLossy rest2
            else utf8DecodeLossy rest1
        else utf8DecodeLossy rest
    else if 0xF0 ≤ b ∧ b ≤ 0xF4 then
      match hr : rest with
      | [] => []
      | c1 :: rest1 =>
        if (b = 0xF0 && decide (0x90 ≤ c1 ∧ c1 ≤ 0xBF)) ||
           (b = 0xF4 && decide (0x80 ≤ c1 ∧ c1 ≤ 0x8F)) ||
           (b ≠ 0xF0 && b ≠ 0xF4 && isCont c1) then
          match hr1 : rest1 with
          | [] => []
          | c2 :: rest2 =>
            if isCont c2 then
              match hr2 : rest2 with
              | [] => []
              | c3 :: rest3 =>
                if isCont c3 then
                  ((b - 0xF0) * 0x40000 + (c1 - 0x80) * 0x1000 +
                    (c2 - 0x80) * 0x40 + (c3 - 0x80)) :: utf8DecodeLossy rest3
                else utf8DecodeLossy rest2
            else utf8DecodeLossy rest1
        else utf8DecodeLossy rest
    else utf8DecodeLossy rest
  termination_by bs => bs.length
  decreasing_by all_goals (subst_vars; simp only [List.length_cons]; omega)

/-- Python `s.encode("utf-8")` for one code point: the standard UTF-8
encoding of a Unicode scalar value. -/
def utf8EncodeChar (c : Nat) : List Nat :=
  if c < 0x80 then [c]
  else if c < 0x800 then [0xC0 + c / 0x40, 0x80 + c % 0x40]
  else if c < 0x10000 then
    [0xE0 + c / 0x1000, 0x80 + c / 0x40 % 0x40, 0x80 + c % 0x40]
  else
    [0xF0 + c / 0x40000, 0x80 + c / 0x1000 % 0x40, 0x80 + c / 0x40 % 0x40,
      0x80 + c % 0x40]

/-- Python `s.encode("utf-8")` on a sequence of code points. -/
def utf8Encode : List Nat → List Nat
  | [] => []
  | c :: cs => utf8EncodeChar c ++ utf8Encode cs

/-- Group a byte sequence into 16-bit UTF-16 code units (little- or
big-endian); a trailing lone byte is dropped. -/
def utf16Units (le : Bool) : List Nat → List Nat
  | a :: b :: rest =>
    (if le then a + 256 * b else 256 * a + b) :: utf16Units le rest
  | _ => []

/-- Combine UTF-16 code units into code points, dropping unpaired
surrogates (`errors="ignore"`). -/
def utf16Combine : List Nat → List Nat
  | [] => []
  | u :: rest =>
    if 0xD800 ≤ u ∧ u ≤ 0xDBFF then
      match hr : rest with
      | [] => []
      | v :: rest2 =>
        if 0xDC00 ≤ v ∧ v ≤ 0xDFFF then
          (0x10000 + (u - 0xD800) * 0x400 + (v - 0xDC00)) :: utf16Combine rest2
        else utf16Combine rest
    else if 0xDC00 ≤ u ∧ u ≤ 0xDFFF then utf16Combine rest
    else u :: utf16Combine rest
  termination_by us => us.length
  decreasing_by all_goals (subst_vars; simp only [List.length_cons]; omega)

/-- Python `bs.decode("utf-16", errors="ignore")`: optional byte-order
mark, little-endian by default, surrogate pairing. -/
def utf16DecodeLossy (bs : List Nat) : List Nat :=
  match bs with
  | 0xFF :: 0xFE :: rest => utf16Combine (utf16Units true rest)
  | 0xFE :: 0xFF :: rest => utf16Combine (utf16Units false rest)
  | _ => utf16Combine (utf16Units true bs)

/-- `text_bytes.decode(encoding, errors="ignore")` where `encoding` is
`"utf-16"` when the status byte's bit 7 is set, else `"utf-8"`. -/
def decodeTextBytes (is_utf16 : Bool) (bs : List Nat) : List Nat :=
  if is_utf16 then utf16DecodeLossy bs else utf8DecodeLossy bs

/-- The body of the `try` block of `Reader._parse_ndef_text_record`:
header flags, type length, short or long payload length, optional id
length, type field, payload, status byte split, lossy decode and strip.
Produces `exn` exactly where a Python subscript would raise. -/
def parseNdefTextRecordBody (msg : List Nat) : PyResult (Option (List Nat)) :=
  match pyGet msg 0 with
  | .exn => .exn
  | .ok header =>
    let sr := (header &&& 0x10) ≠ 0
    let il := (header &&& 0x08) ≠ 0
    match pyGet msg 1 with
    | .exn => .exn
    | .ok type_length =>
      let step2 : PyResult (Nat × Nat) :=
        if sr then
          match pyGet msg 2 with
          | .exn => .exn
          | .ok pl => .ok (pl, 3)
        else .ok (int_from_bytes_big (pySlice msg 2 4), 6)
      match step2 with
      | .exn => .exn
      | .ok (payload_length, idx2) =>
        let step3 : PyResult (Nat × Nat) :=
          if il then
            match pyGet msg idx2 with
            | .exn => .exn
            | .ok idl => .ok (idl, idx2 + 1)
          else .ok (0, idx2)
        match step3 with
        | .exn => .exn
        | .ok (id_length, idx3) =>
          let type_field := pySlice msg idx3 type_length
          let idx4 := idx3 + type_length + id_length
          let payload := pySlice msg idx4 payload_length
          if asciiDecodeLossy type_field ≠ [0x54] ∨ payload = [] then .ok none
          else
            match payload with
            | [] => .ok none
            | status :: _ =>
              let is_utf16 := (status &&& 0x80) ≠ 0
              let lang_length := status &&& 0x3F
              let text_bytes := payload.drop (1 + lang_length)
              let text := pyStrip (decodeTextBytes is_utf16 text_bytes)
              .ok (if text = [] then none else some text)

/-- `Reader._parse_ndef_text_record(ndef_message)`: empty-message guard,
then the `try` body with `except` catching any raise into `None`. -/
def parseNdefTextRecord (msg : List Nat) : Option (List Nat) :=
  if msg = [] then none
  else
    match parseNdefTextRecordBody msg with
    | .ok r => r
    | .exn => none

/-- The TLV scan loop of `Reader._read_ndef_text_payload`, entered at
byte index `idx`: skip NULL TLVs, stop at the terminator or when the
buffer ends, read a short or escaped long length, return the value of the
first type-`0x03` TLV, else skip `length` bytes and continue. -/
def tlvScan (raw : List Nat) (idx : Nat) : PyResult (Option (List Nat)) :=
  if idx < raw.length then
    match pyGet raw idx with
    | .exn => .exn
    | .ok tlv_type =>
      if tlv_type = 0x00 then tlvScan raw (idx + 1)
      else if tlv_type = 0xFE then .ok none
      else if idx + 1 ≥ raw.length then .ok none
      else
        match pyGet raw (idx + 1) with
        | .exn => .exn
        | .ok len1 =>
          if len1 = 0xFF then
            if idx + 3 ≥ raw.length then .ok none
            else
              match pyGet raw (idx + 2), pyGet raw (idx + 3) with
              | .ok hi, .ok lo =>
                let length := hi * 0x100 + lo
                if tlv_type = 0x03 then .ok (some (pySlice raw (idx + 4) length))
                else tlvScan raw (idx + 4 + length)
              | _, _ => .exn
          else
            if tlv_type = 0x03 then .ok (some (pySlice raw (idx + 2) len1))
            else tlvScan raw (idx + 2 + len1)
  else .ok none
  termination_by raw.length - idx

/-- `Reader._read_ndef_text_payload` applied to raw bytes already read
from the tag: the TLV scan, handing the extracted NDEF message to
`_parse_ndef_text_record` (whose own `try/except` never lets a raise
escape). -/
def readNdefTextChecked (raw : List Nat) : PyResult (Option (List Nat)) :=
  match tlvScan raw 0 with
  | .exn => .exn
  | .ok none => .ok none
  | .ok (some ndef_message) => .ok (parseNdefTextRecord ndef_message)

/-- The value of the TLV-scan-plus-parse pipeline (its `exn` outcome is
ruled out by `tlvScan_no_exn` below). -/
def readNdefText (raw : List Nat) : Option (List Nat) :=
  match readNdefTextChecked raw with
  | .ok v => v
  | .exn => none

/-- The round trip of the specification:
`build_text_ndef_tlv` (encode plus TLV wrap, language `"en"`) followed by
the TLV scan and text-record parse of the reader. -/
def roundTrip (text : List Nat) : Option (List Nat) :=
  match build_text_ndef_tlv text langEn with
  | none => none
  | some tlv => readNdefText tlv

/-! ## Tag text service (`Reader.read_tag` in
`src/rfid_audio_player/rfid_reader.py`)

One polling step receives the transport's presence answer — `some uid`
when `request` and `anticoll` both succeeded, `none` otherwise — and the
reader's payload extraction is abstracted as a function of the UID
bytes. -/

/-- `"".join(map(str, uid))`: the UID string formed from the UID byte
list. -/
def uidString (uid : List Nat) : String :=
  String.join (uid.map toString)

/-- One call of `Reader.read_tag` as a transition of the `last_uid`
state: returns the new state and the emitted `(uid, text)` pair.  A new
non-empty UID different from `last_uid` is recorded and emitted together
with the text payload read from the tag; an absent (or empty) UID clears
`last_uid`; the same UID again is a no-op. -/
def readTagStep (readText : List Nat → Option (List Nat))
    (last_uid : Option String) (presence : Option (List Nat)) :
    Option String × (Option String × Option (List Nat)) :=
  match presence with
  | some uid =>
    let uid_str := uidString uid
    if uid_str ≠ "" ∧ some uid_str ≠ last_uid then
      (some uid_str, (some uid_str, readText uid))
    else if uid_str = "" then (none, (none, none))
    else (last_uid, (none, none))
  | none => (none, (none, none))

/-- A sequence of polling steps: the emitted `(uid, text)` outputs of
`read_tag` for each presence answer in turn, threading `last_uid`. -/
def runReader (readText : List Nat → Option (List Nat)) :
    Option String → List (Option (List Nat)) →
    List (Option String × Option (List Nat))
  | _, [] => []
  | last_uid, p :: ps =>
    let step := readTagStep readText last_uid p
    step.2 :: runReader readText step.1 ps

/-! ## Helper lemmas -/

/-- A read run aborts with `None` as soon as authentication fails for a
surviving block of the remaining block list. -/
lemma readBlocksGo_result_none_of_auth_failure (auth : Int → Bool)
    (readUnit : Int → Bool × List Nat) (b : Int) (ht : isTrailer b = false)
    (ha : auth b = true) :
    ∀ (blocks : List Int) (payload : List Nat), b ∈ blocks →
      (readBlocksGo auth readUnit blocks payload).result = none := by
  intro blocks
  induction blocks with
  | nil => intro payload hmem; cases hmem
  | cons x bs ih =>
    intro payload hmem
    by_cases hx : isTrailer x
    · have hbs : b ∈ bs := by
        rcases List.mem_cons.mp hmem with rfl | h
        · rw [ht] at hx; cases hx
        · exact h
      simpa [readBlocksGo, hx] using ih payload hbs
    · simp only [readBlocksGo, hx, if_false, Bool.false_eq_true]
      by_cases hax : auth x = true
      · simp [hax]
      · have hbs : b ∈ bs := by
          rcases List.mem_cons.mp hmem with rfl | h
          · exact absurd ha hax
          · exact h
        rcases hu : readUnit x with ⟨err, data⟩
        cases err with
        | true => simp [hax, hu]
        | false => simpa [hax, hu] using ih (payload ++ data) hbs

/-- When no transport call fails, a read run authenticates exactly the
surviving (non-trailer) blocks, in order. -/
lemma readBlocksGo_auths_of_success (auth : Int → Bool)
    (readUnit : Int → Bool × List Nat) (hA : ∀ b, auth b = false)
    (hR : ∀ b, (readUnit b).1 = false) :
    ∀ (blocks : List Int) (payload : List Nat),
      (readBlocksGo auth readUnit blocks payload).auths =
        blocks.filter (fun b => !isTrailer b) := by
  intro blocks
  induction blocks with
  | nil => intro payload; rfl
  | cons x bs ih =>
    intro payload
    by_cases hx : isTrailer x
    · simp [readBlocksGo, hx, ih payload]
    · rcases hu : readUnit x with ⟨err, data⟩
      have herr : err = false := by have := hR x; rwa [hu] at this
      subst herr
      simp [readBlocksGo, hx, hA x, hu, ih (payload ++ data)]

/-- When no transport call fails, a write run force-authenticates every
prepared block, in order. -/
lemma writeBlocksGo_auths_of_success (doAuth : Int → Bool)
    (writeUnit : Int → List Nat → Bool) (hA : ∀ b, doAuth b = false)
    (hW : ∀ b d, writeUnit b d = false) :
    ∀ payloads : List (Int × List Nat),
      (writeBlocksGo doAuth writeUnit payloads).auths =
        payloads.map Prod.fst := by
  intro payloads
  induction payloads with
  | nil => rfl
  | cons p ps ih =>
    rcases p with ⟨b, d⟩
    simp [writeBlocksGo, hA b, hW b d, ih]


/-- A failed page write in the trace is always the final entry, and the
run reports failure. -/
lemma writePagesGo_stops_at_failure (transport : Nat → List Nat → Bool)
    (data : List Nat) (start_page : Nat) :
    ∀ (n i : Nat) (l₁ : List (Nat × List Nat)) (p : Nat) (d : List Nat)
      (l₂ : List (Nat × List Nat)),
      (writePagesGo transport data start_page i n).writes = l₁ ++ (p, d) :: l₂ →
      write_ntag_page transport p d = false →
      l₂ = [] ∧ (writePagesGo transport data start_page i n).success = false := by
  intro n
  induction n with
  | zero =>
    intro i l₁ p d l₂ hw _
    rw [writePagesGo] at hw
    exact absurd hw.symm
      (List.append_ne_nil_of_right_ne_nil l₁ (List.cons_ne_nil (p, d) l₂))
  | succ m ih =>
    intro i l₁ p d l₂ hw hfail
    rw [writePagesGo] at hw ⊢
    by_cases hok : write_ntag_page transport (start_page + i)
        (((data.drop (i * 4)).take 4) ++
          List.replicate (4 - ((data.drop (i * 4)).take 4).length) 0x00) = true
    · rw [if_pos hok] at hw ⊢
      simp only at hw
      rcases l₁ with _ | ⟨x, l₁t⟩
      · simp only [List.nil_append, List.cons.injEq, Prod.mk.injEq] at hw
        rcases hw with ⟨⟨hp, hd⟩, _⟩
        rw [← hp, ← hd] at hfail
        rw [hok] at hfail
        cases hfail
      · simp only [List.cons_append, List.cons.injEq] at hw
        exact ih (i + 1) l₁t p d l₂ hw.2 hfail
    · rw [if_neg hok] at hw ⊢
      simp only at hw
      rcases l₁ with _ | ⟨x, l₁t⟩
      · simp only [List.nil_append, List.cons.injEq] at hw
        exact ⟨hw.2.symm, rfl⟩
      · simp only [List.cons_append, List.cons.injEq] at hw
        exact absurd hw.2.symm
          (List.append_ne_nil_of_right_ne_nil l₁t (List.cons_ne_nil (p, d) l₂))

/-! ## Claim theorems -/

/-- C8: encoding the text `"Hi"` with language `"en"` and wrapping the
record in a TLV yields exactly the bytes
`03 09 D1 01 05 54 02 65 6E 48 69 FE`, on both the combined
`build_text_ndef_tlv` path and the `_create_text_record` plus
`_create_tlv_wrapper` path (whose 4-byte padding adds nothing to this
12-byte result). -/
theorem c8_concrete_hi_bytes :
    build_text_ndef_tlv [0x48, 0x69] langEn =
      some [0x03, 0x09, 0xD1, 0x01, 0x05, 0x54, 0x02, 0x65, 0x6E, 0x48, 0x69, 0xFE] ∧
    (create_text_record [0x48, 0x69] langEn).map create_tlv_wrapper =
      some [0x03, 0x09, 0xD1, 0x01, 0x05, 0x54, 0x02, 0x65, 0x6E, 0x48, 0x69, 0xFE] := by
  constructor <;> rfl

/-- C3: whenever the text-record payload (status byte, language bytes and
UTF-8 text bytes) exceeds 255 bytes, both encoders fail —
`build_text_ndef_tlv` by the raising `bytes([...])` constructor and
`_create_text_record` by its caught exception — and the paged write path
reports failure without issuing a single page write. -/
theorem c3_oversize_encoding_fails (text lang_code : List Nat)
    (h : 255 < 1 + lang_code.length + text.length) :
    build_text_ndef_tlv text lang_code = none ∧
    create_text_record text lang_code = none ∧
    ∀ transport, (writeTextRun transport text lang_code).writes = [] ∧
      (writeTextRun transport text lang_code).success = false := by
  have hb : build_text_ndef_tlv text lang_code = none := by
    unfold build_text_ndef_tlv
    simp only [List.length_cons, List.length_append]
    rw [if_pos (by omega)]
  have hc : create_text_record text lang_code = none := by
    unfold create_text_record
    simp only [List.length_cons, List.length_append]
    rw [if_pos (by omega)]
  exact ⟨hb, hc, fun transport => by simp [writeTextRun, hc]⟩

/-- C3 witness: a 255-byte text with language `"en"` gives a 258-byte
payload and every encoder rejects it with no page written. -/
theorem c3_oversize_encoding_fails_witness :
    build_text_ndef_tlv (List.replicate 255 0x61) langEn = none ∧
    create_text_record (List.replicate 255 0x61) langEn = none ∧
    ∀ transport, (writeTextRun transport (List.replicate 255 0x61) langEn).writes = [] ∧
      (writeTextRun transport (List.replicate 255 0x61) langEn).success = false :=
  c3_oversize_encoding_fails (List.replicate 255 0x61) langEn
    (by rw [List.length_replicate]; norm_num [langEn])

/-- C4: if authentication fails for a touched (non-trailer) block of a
sectored read, the whole operation returns `None` — never a partial
concatenation of previously read blocks. -/
theorem c4_auth_failure_aborts_read (auth : Int → Bool)
    (readUnit : Int → Bool × List Nat) (blocks : List Int) (b : Int)
    (hmem : b ∈ blocks) (ht : isTrailer b = false) (ha : auth b = true) :
    (readBlocks auth readUnit blocks).result = none := by
  unfold readBlocks
  rcases blocks with _ | ⟨x, bs⟩
  · cases hmem
  · simp only [reduceCtorEq, if_false]
    exact readBlocksGo_result_none_of_auth_failure auth readUnit b ht ha
      (x :: bs) [] hmem

/-- C4 witness: with a transport whose authentication always fails, a
read of block 4 returns `None`. -/
theorem c4_auth_failure_aborts_read_witness :
    (readBlocks (fun _ => true) (fun _ => (false, List.replicate 16 0)) [4]).result
      = none :=
  c4_auth_failure_aborts_read (fun _ => true)
    (fun _ => (false, List.replicate 16 0)) [4] 4 (by decide) (by decide) rfl

/-- C5 counterexample: blocks 4 and 5 lie in the same sector (`4 / 4 =
5 / 4 = 1`), yet a fully successful read of `[4, 5]` invokes
authentication on both — the trace of authenticated blocks does not have
pairwise-distinct sectors, so authentication is not performed only for
sectors not yet authenticated in the operation. -/
theorem c5_counterexample :
    ¬ List.Pairwise (fun a b => a / 4 ≠ b / 4)
      ((readBlocks (fun _ => false) (fun _ => (false, List.replicate 16 0))
        [4, 5]).auths) := by
  decide

/-- C5 as amended: `util.auth` (read path) and `util.do_auth(...,
force=True)` (write path) are invoked once per surviving block — for
every non-trailer block of the operation, not only for blocks of
not-yet-authenticated sectors. -/
theorem c5_auth_invoked_per_block (auth : Int → Bool)
    (readUnit : Int → Bool × List Nat) (doAuth : Int → Bool)
    (writeUnit : Int → List Nat → Bool) (blocks : List Int)
    (payloads : List (Int × List Nat)) (hA : ∀ b, auth b = false)
    (hR : ∀ b, (readUnit b).1 = false) (hDA : ∀ b, doAuth b = false)
    (hW : ∀ b d, writeUnit b d = false) :
    (readBlocks auth readUnit blocks).auths =
      blocks.filter (fun b => !isTrailer b) ∧
    (writeBlocksGo doAuth writeUnit payloads).auths =
      payloads.map Prod.fst := by
  constructor
  · unfold readBlocks
    rcases blocks with _ | ⟨x, bs⟩
    · rfl
    · simp only [reduceCtorEq, if_false]
      exact readBlocksGo_auths_of_success auth readUnit hA hR (x :: bs) []
  · exact writeBlocksGo_auths_of_success doAuth writeUnit hDA hW payloads

/-- C5 witness: with an always-succeeding transport, reading blocks
`[4, 5, 6, 7, 8]` authenticates `[4, 5, 6, 8]` (each surviving block)
and writing two prepared blocks of one sector authenticates both. -/
theorem c5_auth_invoked_per_block_witness :
    (readBlocks (fun _ => false) (fun _ => (false, List.replicate 16 0))
      [4, 5, 6, 7, 8]).auths =
      ([4, 5, 6, 7, 8] : List Int).filter (fun b => !isTrailer b) ∧
    (writeBlocksGo (fun _ => false) (fun _ _ => false)
      [((4 : Int), List.replicate 16 0), ((5 : Int), List.replicate 16 0)]).auths =
      [((4 : Int), List.replicate 16 0), ((5 : Int), List.replicate 16 0)].map
        Prod.fst :=
  c5_auth_invoked_per_block (fun _ => false) (fun _ => (false, List.replicate 16 0))
    (fun _ => false) (fun _ _ => false) [4, 5, 6, 7, 8]
    [(4, List.replicate 16 0), (5, List.replicate 16 0)]
    (fun _ => rfl) (fun _ => rfl) (fun _ => rfl) (fun _ _ => rfl)

/-- Every block on which a unit read was issued comes from the block
list and is not a sector trailer. -/
lemma readBlocksGo_unitOps_sound (auth : Int → Bool)
    (readUnit : Int → Bool × List Nat) :
    ∀ (blocks : List Int) (payload : List Nat) (b : Int),
      b ∈ (readBlocksGo auth readUnit blocks payload).unitOps →
      b ∈ blocks ∧ isTrailer b = false := by
  intro blocks
  induction blocks with
  | nil => intro payload b hb; cases hb
  | cons x bs ih =>
    intro payload b hb
    by_cases hx : isTrailer x
    · rw [readBlocksGo, if_pos hx] at hb
      rcases ih payload b hb with ⟨h1, h2⟩
      exact ⟨List.mem_cons_of_mem x h1, h2⟩
    · rw [readBlocksGo, if_neg hx] at hb
      by_cases hax : auth x = true
      · simp [hax] at hb
      · rcases hu : readUnit x with ⟨err, data⟩
        rw [hu] at hb
        simp only [Bool.not_eq_true] at hax
        cases err with
        | true =>
          simp only [hax, Bool.false_eq_true, if_false, if_true] at hb
          rcases List.mem_singleton.mp hb with rfl
          exact ⟨List.mem_cons_self _ _, by simpa using hx⟩
        | false =>
          simp only [hax, Bool.false_eq_true, if_false] at hb
          rcases List.mem_cons.mp hb with rfl | hb2
          · exact ⟨List.mem_cons_self _ _, by simpa using hx⟩
          · rcases ih (payload ++ data) b hb2 with ⟨h1, h2⟩
            exact ⟨List.mem_cons_of_mem x h1, h2⟩

/-- Every `(block, chunk)` pair produced by the chunking loop has a
non-trailer block. -/
lemma buildChunksGo_blocks_sound (buffer : List Nat) :
    ∀ (blocks : List Int) (offset : Nat) (p : Int × List Nat),
      p ∈ buildChunksGo buffer blocks offset → ¬ (p.1 + 1) % 4 = 0 := by
  intro blocks
  induction blocks with
  | nil => intro offset p hp; cases hp
  | cons x bs ih =>
    intro offset p hp
    by_cases hx : (x + 1) % 4 = 0
    · rw [buildChunksGo, if_pos hx] at hp
      exact ih offset p hp
    · rw [buildChunksGo, if_neg hx] at hp
      rcases List.mem_cons.mp hp with rfl | hp2
      · exact hx
      · exact ih (offset + BLOCK_SIZE) p hp2

/-- Every block on which a unit write was issued comes from the prepared
payload list. -/
lemma writeBlocksGo_unitOps_sound (doAuth : Int → Bool)
    (writeUnit : Int → List Nat → Bool) :
    ∀ (payloads : List (Int × List Nat)) (b : Int),
      b ∈ (writeBlocksGo doAuth writeUnit payloads).unitOps →
      b ∈ payloads.map Prod.fst := by
  intro payloads
  induction payloads with
  | nil => intro b hb; cases hb
  | cons p ps ih =>
    rcases p with ⟨x, d⟩
    intro b hb
    by_cases ha : doAuth x = true
    · simp [writeBlocksGo, ha] at hb
    · simp only [Bool.not_eq_true] at ha
      by_cases hw : writeUnit x d = true
      · rw [writeBlocksGo] at hb
        simp only [ha, hw, Bool.false_eq_true, if_false, if_true] at hb
        rcases List.mem_singleton.mp hb with rfl
        exact List.mem_cons_self _ _
      · simp only [Bool.not_eq_true] at hw
        rw [writeBlocksGo] at hb
        simp only [ha, hw, Bool.false_eq_true, if_false] at hb
        rcases List.mem_cons.mp hb with rfl | hb2
        · exact List.mem_cons_self _ _
        · exact List.mem_cons_of_mem _ (ih b hb2)

/-- C6: for the configured sectored layout (`start_unit = 4`,
`unit_count = 16`), no block with `(block + 1) % 4 == 0` is ever read,
prepared for writing, or written: sector trailers are always skipped on
both the read path and the write path. -/
theorem c6_no_trailer_touched (auth : Int → Bool)
    (readUnit : Int → Bool × List Nat) (doAuth : Int → Bool)
    (writeUnit : Int → List Nat → Bool) (text : List Nat) :
    ((readBlocks auth readUnit generate_block_sequence).unitOps.all
      (fun b => !decide ((b + 1) % 4 = 0))) = true ∧
    (Option.all
      (fun payloads =>
        payloads.all (fun p => !decide ((p.1 + 1) % 4 = 0)) &&
        (writeBlocksGo doAuth writeUnit payloads).unitOps.all
          (fun b => !decide ((b + 1) % 4 = 0)))
      (build_block_payloads text)) = true := by
  constructor
  · rw [List.all_eq_true]
    intro b hb
    unfold readBlocks at hb
    rw [if_neg (by decide)] at hb
    rcases readBlocksGo_unitOps_sound auth readUnit generate_block_sequence [] b hb
      with ⟨hmem, htr⟩
    have hnn : (0 : Int) ≤ b := by
      have : ∀ x ∈ generate_block_sequence, (0 : Int) ≤ x := by decide
      exact this b hmem
    simp only [isTrailer, Bool.and_eq_false_iff, decide_eq_false_iff_not] at htr
    rcases htr with h | h
    · exact absurd hnn h
    · simpa using h
  · rcases hb : build_block_payloads text with _ | payloads
    · rfl
    · have hpl : ∀ p ∈ payloads, ¬ (p.1 + 1) % 4 = 0 := by
        unfold build_block_payloads at hb
        rcases htlv : build_text_ndef_tlv text langEn with _ | tlv
        · rw [htlv] at hb; cases hb
        · rw [htlv] at hb
          simp only [Option.some.injEq] at hb
          intro p hp
          rw [← hb] at hp
          exact buildChunksGo_blocks_sound _ generate_block_sequence 0 p hp
      simp only [Option.all_some, Bool.and_eq_true]
      constructor
      · rw [List.all_eq_true]
        intro p hp
        simpa using hpl p hp
      · rw [List.all_eq_true]
        intro b hbmem
        have hmap := writeBlocksGo_unitOps_sound doAuth writeUnit payloads b hbmem
        rcases List.mem_map.mp hmap with ⟨p, hp, hfst⟩
        subst hfst
        simpa using hpl p hp

/-- C7: writing a 10-byte payload through the paged adapter starting at
page 4 issues exactly the page writes `(4, bytes 0..3)`, `(5, bytes
4..7)`, `(6, bytes 8..9 zero-padded to 4)` in that order when the
transport acknowledges every write, and in general a failed page write is
the last write issued and makes the operation report failure. -/
theorem c7_paged_write_three_pages (transport : Nat → List Nat → Bool)
    (data : List Nat) (h10 : data.length = 10) :
    ((∀ p d, transport p d = true) →
      (writePages transport data 4).writes =
        [(4, data.take 4), (5, (data.drop 4).take 4),
         (6, data.drop 8 ++ [0x00, 0x00])] ∧
      (writePages transport data 4).success = true) ∧
    (∀ (l₁ : List (Nat × List Nat)) (p : Nat) (d : List Nat)
       (l₂ : List (Nat × List Nat)),
      (writePages transport data 4).writes = l₁ ++ (p, d) :: l₂ →
      write_ntag_page transport p d = false →
      l₂ = [] ∧ (writePages transport data 4).success = false) := by
  constructor
  · intro ht
    have h1 : (data.take 4).length = 4 := by rw [List.length_take]; omega
    have h2 : ((data.drop 4).take 4).length = 4 := by
      rw [List.length_take, List.length_drop]; omega
    have h3 : (data.drop 8).length = 2 := by rw [List.length_drop]; omega
    have h4 : (data.drop 8).take 4 = data.drop 8 := List.take_of_length_le (by omega)
    unfold writePages
    rw [h10]
    norm_num
    rw [writePagesGo, writePagesGo, writePagesGo, writePagesGo]
    simp [write_ntag_page, ht, h1, h2, h3, h4, List.drop_drop]
  · intro l₁ p d l₂ hw hfail
    exact writePagesGo_stops_at_failure transport data 4 ((data.length + 3) / 4) 0
      l₁ p d l₂ hw hfail

/-- C7 witness: the bytes `0..9` written at page 4 through an
always-acknowledging transport give exactly the three page writes. -/
theorem c7_paged_write_three_pages_witness :
    (writePages (fun _ _ => true) [0, 1, 2, 3, 4, 5, 6, 7, 8, 9] 4).writes =
      [(4, [0, 1, 2, 3]), (5, [4, 5, 6, 7]), (6, [8, 9, 0x00, 0x00])] ∧
    (writePages (fun _ _ => true) [0, 1, 2, 3, 4, 5, 6, 7, 8, 9] 4).success
      = true := by
  have h := (c7_paged_write_three_pages (fun _ _ => true)
    [0, 1, 2, 3, 4, 5, 6, 7, 8, 9] rfl).1 (fun _ _ => rfl)
  simpa using h

/-- A paged read whose transport never fails and always returns 16-byte
chunks issues read commands at every 4th page from `current` and
accumulates 16 bytes per command. -/
lemma readPagesGo_ok (readCmd : Nat → Bool × List Nat)
    (hok : ∀ p, (readCmd p).1 = false ∧ (readCmd p).2.length = 16)
    (final : Nat) :
    ∀ (current : Nat) (payload : List Nat),
      (readPagesGo readCmd final current payload).reads =
        (List.range ((final - current + 3) / 4)).map (fun i => current + 4 * i) ∧
      ∃ buf, (readPagesGo readCmd final current payload).result = some buf ∧
        buf.length = payload.length + 16 * ((final - current + 3) / 4) := by
  suffices H : ∀ d current payload, final - current = d →
      (readPagesGo readCmd final current payload).reads =
        (List.range ((final - current + 3) / 4)).map (fun i => current + 4 * i) ∧
      ∃ buf, (readPagesGo readCmd final current payload).result = some buf ∧
        buf.length = payload.length + 16 * ((final - current + 3) / 4) by
    intro current payload
    exact H (final - current) current payload rfl
  intro d
  induction d using Nat.strong_induction_on with
  | _ d ih =>
    intro current payload hd
    rw [readPagesGo]
    by_cases hc : current < final
    · rw [if_pos hc]
      obtain ⟨he, hl⟩ := hok current
      rcases hcmd : readCmd current with ⟨err, dat⟩
      rw [hcmd] at he hl
      simp only at he hl
      subst he
      simp only [Bool.false_eq_true, if_false]
      obtain ⟨hr, buf, hres, hlen⟩ :=
        ih (final - (current + 4)) (by omega) (current + 4) (payload ++ dat) rfl
      have hsucc : (final - current + 3) / 4 = (final - (current + 4) + 3) / 4 + 1 := by
        omega
      have hrange : (List.range ((final - (current + 4) + 3) / 4 + 1)).map
          (fun i => current + 4 * i) =
          current :: (List.range ((final - (current + 4) + 3) / 4)).map
            (fun i => current + 4 + 4 * i) := by
        rw [List.range_succ_eq_map, List.map_cons, List.map_map]
        refine congrArg₂ _ (by omega) ?_
        refine List.map_congr_left ?_
        intro a _
        simp [Function.comp]
        omega
      refine ⟨?_, buf, ?_, ?_⟩
      · simp only [hr, hsucc, hrange]
      · simpa using hres
      · rw [hlen, hsucc]
        simp [List.length_append, hl]
        omega
    · rw [if_neg hc]
      have h0 : final - current = 0 := by omega
      refine ⟨by simp [h0], payload, rfl, by simp [h0]⟩

/-- C10: a successful paged read of `page_count` pages starting at
`start_page` issues read commands at pages `start_page, start_page + 4,
start_page + 8, ...` (⌈page_count / 4⌉ commands, covering pages past the
requested range when `page_count` is not a multiple of 4) and returns a
buffer of exactly `page_count * 4` bytes after trimming. -/
theorem c10_paged_read_exact_length (readCmd : Nat → Bool × List Nat)
    (start_page page_count : Nat) (hc : page_count ≠ 0)
    (hok : ∀ p, (readCmd p).1 = false ∧ (readCmd p).2.length = 16) :
    (readPages readCmd start_page page_count).reads =
      (List.range ((page_count + 3) / 4)).map (fun i => start_page + 4 * i) ∧
    ∃ buf, (readPages readCmd start_page page_count).result = some buf ∧
      buf.length = page_count * 4 := by
  unfold readPages
  rw [if_neg hc]
  obtain ⟨hr, buf, hres, hlen⟩ :=
    readPagesGo_ok readCmd hok (start_page + page_count) start_page []
  have hcnt : start_page + page_count - start_page = page_count := by omega
  rw [hcnt] at hr hlen
  refine ⟨hr, buf.take (page_count * 4), ?_, ?_⟩
  · simp [hres]
  · rw [List.length_take, hlen]
    simp only [List.length_nil, Nat.zero_add]
    omega

/-- C10 witness: reading 6 pages (not a multiple of 4) from page 4 with a
transport returning 16-byte chunks issues reads at pages 4 and 8 and
returns exactly 24 bytes. -/
theorem c10_paged_read_exact_length_witness :
    (readPages (fun _ => (false, List.replicate 16 0)) 4 6).reads =
      (List.range ((6 + 3) / 4)).map (fun i => 4 + 4 * i) ∧
    ∃ buf, (readPages (fun _ => (false, List.replicate 16 0)) 4 6).result
        = some buf ∧ buf.length = 6 * 4 :=
  c10_paged_read_exact_length (fun _ => (false, List.replicate 16 0)) 4 6
    (by decide) (fun _ => ⟨rfl, by simp⟩)

/-- C9 counterexample: presenting tag `[1]`, then tag `[2]`, then tag
`[1]` again — three presentations with no intervening absence — makes the
service emit UID `"1"` twice: a later presentation of an already-seen UID
is not a no-op when a different tag was presented in between, because
only the immediately preceding UID is remembered. -/
theorem c9_counterexample :
    (runReader (fun _ => none) none [some [1], some [2], some [1]]).map Prod.fst
      = [some "1", some "2", some "1"] ∧
    ∀ p ∈ [some [1], some [2], some [1]], p ≠ (none : Option (List Nat)) := by
  constructor
  · rfl
  · decide

/-- C9 as amended: once a non-empty UID has been recorded, consecutive
further presentations of that same UID (with no intervening absence and
no other UID in between) are no-ops that emit nothing, and from the idle
state such a run emits the UID exactly once, at its first presentation. -/
theorem c9_same_uid_no_reemission (readText : List Nat → Option (List Nat))
    (uid : List Nat) (h : uidString uid ≠ "") (n : Nat) :
    runReader readText (some (uidString uid)) (List.replicate n (some uid)) =
      List.replicate n (none, none) ∧
    runReader readText none (some uid :: List.replicate n (some uid)) =
      (some (uidString uid), readText uid) :: List.replicate n (none, none) := by
  have hsettled : ∀ m, runReader readText (some (uidString uid))
      (List.replicate m (some uid)) = List.replicate m (none, none) := by
    intro m
    induction m with
    | zero => rfl
    | succ k ihk =>
      rw [List.replicate_succ, runReader]
      have hstep : readTagStep readText (some (uidString uid)) (some uid) =
          (some (uidString uid), (none, none)) := by
        simp [readTagStep, h]
      rw [hstep]
      simp only
      rw [ihk, List.replicate_succ]
  refine ⟨hsettled n, ?_⟩
  rw [runReader]
  have hstep0 : readTagStep readText none (some uid) =
      (some (uidString uid), (some (uidString uid), readText uid)) := by
    simp [readTagStep, h]
  rw [hstep0]
  simp only
  rw [hsettled n]

/-- C9 witness: with UID bytes `[1, 2, 3]` (UID string `"123"`), two
further presentations after the first are no-ops. -/
theorem c9_same_uid_no_reemission_witness :
    runReader (fun _ => none) (some (uidString [1, 2, 3]))
      (List.replicate 2 (some [1, 2, 3])) = List.replicate 2 (none, none) ∧
    runReader (fun _ => none) none
      (some [1, 2, 3] :: List.replicate 2 (some [1, 2, 3])) =
      (some (uidString [1, 2, 3]), none) :: List.replicate 2 (none, none) :=
  c9_same_uid_no_reemission (fun _ => none) [1, 2, 3] (by decide) 2

/-- The TLV scan loop's bounds checks are sufficient: no subscript in it
is ever out of range, for any input whatsoever. -/
lemma tlvScan_no_exn (raw : List Nat) :
    ∀ idx, tlvScan raw idx ≠ PyResult.exn := by
  intro idx
  suffices H : ∀ d idx, raw.length - idx = d → tlvScan raw idx ≠ PyResult.exn by
    exact H (raw.length - idx) idx rfl
  intro d
  induction d using Nat.strong_induction_on with
  | _ d ih =>
    intro idx hd
    rw [tlvScan]
    by_cases h0 : idx < raw.length
    · have hg0 : pyGet raw idx = PyResult.ok raw[idx] := dif_pos h0
      simp only [if_pos h0, hg0]
      by_cases ht0 : raw[idx] = 0x00
      · simp only [if_pos ht0]
        exact ih (raw.length - (idx + 1)) (by omega) (idx + 1) rfl
      · simp only [if_neg ht0]
        by_cases ht1 : raw[idx] = 0xFE
        · simp only [if_pos ht1]; simp
        · simp only [if_neg ht1]
          by_cases h1 : idx + 1 ≥ raw.length
          · simp only [if_pos h1]; simp
          · simp only [if_neg h1]
            have h1' : idx + 1 < raw.length := by omega
            have hg1 : pyGet raw (idx + 1) = PyResult.ok raw[idx + 1] := dif_pos h1'
            simp only [hg1]
            by_cases hff : raw[idx + 1] = 0xFF
            · simp only [if_pos hff]
              by_cases h3 : idx + 3 ≥ raw.length
              · simp only [if_pos h3]; simp
              · simp only [if_neg h3]
                have h2' : idx + 2 < raw.length := by omega
                have h3' : idx + 3 < raw.length := by omega
                have hg2 : pyGet raw (idx + 2) = PyResult.ok raw[idx + 2] := dif_pos h2'
                have hg3 : pyGet raw (idx + 3) = PyResult.ok raw[idx + 3] := dif_pos h3'
                simp only [hg2, hg3]
                by_cases htt : raw[idx] = 0x03
                · simp only [if_pos htt]; simp
                · simp only [if_neg htt]
                  exact ih (raw.length - (idx + 4 + (raw[idx + 2] * 0x100 + raw[idx + 3])))
                    (by omega) _ rfl
            · simp only [if_neg hff]
              by_cases htt : raw[idx] = 0x03
              · simp only [if_pos htt]; simp
              · simp only [if_neg htt]
                exact ih (raw.length - (idx + 2 + raw[idx + 1])) (by omega) _ rfl
    · simp only [if_neg h0]; simp

/-- C2: on every input byte sequence — empty, truncated or arbitrarily
malformed — the TLV unwrapping and text-record decoding pipeline never
raises: the scan loop's explicit bounds checks keep every subscript in
range, and the record parser's `try/except` catches any raise, so the
pipeline always returns a decoded text or `None`. -/
theorem c2_decode_never_raises (raw : List Nat) :
    ∃ v, readNdefTextChecked raw = PyResult.ok v := by
  unfold readNdefTextChecked
  rcases hscan : tlvScan raw 0 with v | _
  · rcases v with _ | ndef
    · exact ⟨none, rfl⟩
    · exact ⟨parseNdefTextRecord ndef, rfl⟩
  · exact absurd hscan (tlvScan_no_exn raw 0)

/-- Decoding inverts encoding on every sequence of Unicode scalar values
(code points up to `0x10FFFF` that are not surrogates). -/
lemma utf8DecodeLossy_utf8Encode :
    ∀ cs : List Nat, (∀ c ∈ cs, c ≤ 0x10FFFF ∧ ¬(0xD800 ≤ c ∧ c ≤ 0xDFFF)) →
      utf8DecodeLossy (utf8Encode cs) = cs := by
  intro cs
  induction cs with
  | nil => intro _; simp [utf8Encode, utf8DecodeLossy]
  | cons c cs ih =>
    intro h
    obtain ⟨hmax, hsur⟩ := h c (List.mem_cons_self c cs)
    have ihr := ih (fun x hx => h x (List.mem_cons_of_mem c hx))
    have henc : utf8Encode (c :: cs) = utf8EncodeChar c ++ utf8Encode cs := rfl
    rw [henc]
    by_cases h1 : c < 0x80
    · have hchar : utf8EncodeChar c = [c] := by rw [utf8EncodeChar, if_pos h1]
      rw [hchar]
      simp only [List.cons_append, List.nil_append]
      rw [utf8DecodeLossy.eq_def]
      simp only
      rw [if_pos h1, ihr]
    · by_cases h2 : c < 0x800
      · have hchar : utf8EncodeChar c = [0xC0 + c / 0x40, 0x80 + c % 0x40] := by
          rw [utf8EncodeChar, if_neg h1, if_pos h2]
        rw [hchar]
        simp only [List.cons_append, List.nil_append]
        rw [utf8DecodeLossy.eq_def]
        simp only
        rw [if_neg (by omega), if_pos (by omega)]
        rw [if_pos (show isCont (0x80 + c % 0x40) = true by
          simp only [isCont, decide_eq_true_eq]; omega)]
        rw [ihr]
        simp only [List.cons.injEq]
        exact ⟨by omega, trivial⟩
      · by_cases h3 : c < 0x10000
        · have hchar : utf8EncodeChar c =
              [0xE0 + c / 0x1000, 0x80 + c / 0x40 % 0x40, 0x80 + c % 0x40] := by
            rw [utf8EncodeChar, if_neg h1, if_neg h2, if_pos h3]
          rw [hchar]
          simp only [List.cons_append, List.nil_append]
          rw [utf8DecodeLossy.eq_def]
          simp only
          rw [if_neg (by omega), if_neg (by omega), if_pos (by omega)]
          split
          · rw [if_pos (show isCont (0x80 + c % 0x40) = true by
              simp only [isCont, decide_eq_true_eq]; omega)]
            rw [ihr]
            simp only [List.cons.injEq]
            exact ⟨by omega, trivial⟩
          · rename_i hcnd
            exfalso
            apply hcnd
            simp only [isCont, Bool.or_eq_true, Bool.and_eq_true, decide_eq_true_eq]
            omega
        · have hchar : utf8EncodeChar c =
              [0xF0 + c / 0x40000, 0x80 + c / 0x1000 % 0x40,
                0x80 + c / 0x40 % 0x40, 0x80 + c % 0x40] := by
            rw [utf8EncodeChar, if_neg h1, if_neg h2, if_neg h3]
          rw [hchar]
          simp only [List.cons_append, List.nil_append]
          rw [utf8DecodeLossy.eq_def]
          simp only
          rw [if_neg (by omega), if_neg (by omega), if_neg (by omega),
            if_pos (by omega)]
          split
          · rw [if_pos (show isCont (0x80 + c / 0x40 % 0x40) = true by
              simp only [isCont, decide_eq_true_eq]; omega)]
            rw [if_pos (show isCont (0x80 + c % 0x40) = true by
              simp only [isCont, decide_eq_true_eq]; omega)]
            rw [ihr]
            simp only [List.cons.injEq]
            exact ⟨by omega, trivial⟩
          · rename_i hcnd
            exfalso
            apply hcnd
            simp only [isCont, Bool.or_eq_true, Bool.and_eq_true, decide_eq_true_eq]
            omega

/-- Scanning the TLV produced by the encoder finds the NDEF message:
the very first TLV has type `0x03` and a short-form length byte. -/
lemma c1_scan_step (t : List Nat) (hLen : t.length ≤ 247) :
    tlvScan (0x03 :: (t.length + 7) :: (([0xD1, 0x01, t.length + 3, 0x54, 0x02, 0x65, 0x6E] ++ t) ++ [0xFE])) 0
      = PyResult.ok (some ([0xD1, 0x01, t.length + 3, 0x54, 0x02, 0x65, 0x6E] ++ t)) := by
  set ndefE := [0xD1, 0x01, t.length + 3, 0x54, 0x02, 0x65, 0x6E] ++ t with hndef
  set tlvE := 0x03 :: (t.length + 7) :: (ndefE ++ [0xFE]) with htlv
  have hL : tlvE.length = t.length + 10 := by simp [htlv, hndef]
  rw [tlvScan]
  have h0 : 0 < tlvE.length := by omega
  rw [if_pos h0]
  have hg0 : pyGet tlvE 0 = PyResult.ok 0x03 := by
    rw [pyGet, dif_pos h0]; rfl
  simp only [hg0]
  rw [if_neg (by norm_num), if_neg (by norm_num), if_neg (by omega)]
  have h1 : 0 + 1 < tlvE.length := by omega
  have hg1 : pyGet tlvE (0 + 1) = PyResult.ok (t.length + 7) := by
    rw [pyGet, dif_pos h1]; rfl
  simp only [hg1]
  rw [if_neg (by omega)]
  simp only [if_true]
  have hslice : pySlice tlvE (0 + 2) (t.length + 7) = ndefE := by
    show ((tlvE.drop 2).take (t.length + 7)) = ndefE
    have hdrop : tlvE.drop 2 = ndefE ++ [0xFE] := rfl
    rw [hdrop]
    have h7 : ndefE.length = t.length + 7 := by simp [hndef]
    rw [← h7, List.take_left]
  rw [hslice]



/-- Parsing the encoder's NDEF record recovers the stripped decoded
text: for text bytes `t` that lossily decode to the code points `cs`,
the parser returns `cs` stripped of surrounding whitespace. -/
lemma c1_parse_step (t cs : List Nat) (hdec : utf8DecodeLossy t = cs)
    (hNE : pyStrip cs ≠ []) :
    parseNdefTextRecord ([0xD1, 0x01, t.length + 3, 0x54, 0x02, 0x65, 0x6E] ++ t)
      = some (pyStrip cs) := by
  set ndefE := [0xD1, 0x01, t.length + 3, 0x54, 0x02, 0x65, 0x6E] ++ t with hndef
  have hlen : ndefE.length = t.length + 7 := by simp [hndef]
  have hne : ndefE ≠ [] := by simp [hndef]
  rw [parseNdefTextRecord, if_neg hne]
  have hg0 : pyGet ndefE 0 = PyResult.ok 0xD1 := by
    rw [pyGet, dif_pos (by omega)]; rfl
  have hg1 : pyGet ndefE 1 = PyResult.ok 0x01 := by
    rw [pyGet, dif_pos (by omega)]; rfl
  have hg2 : pyGet ndefE 2 = PyResult.ok (t.length + 3) := by
    rw [pyGet, dif_pos (by omega)]; rfl
  have hslice1 : pySlice ndefE 3 0x01 = [0x54] := rfl
  have hslice2 : pySlice ndefE 4 (t.length + 3) = 0x02 :: 0x65 :: 0x6E :: t := by
    show ((ndefE.drop 4).take (t.length + 3)) = 0x02 :: 0x65 :: 0x6E :: t
    have hdrop : ndefE.drop 4 = 0x02 :: 0x65 :: 0x6E :: t := rfl
    rw [hdrop]
    have h3 : (0x02 :: 0x65 :: 0x6E :: t).length = t.length + 3 := by simp
    conv in List.take _ _ => rw [← h3]
    rw [List.take_length]
  rw [parseNdefTextRecordBody]
  simp only [hg0, hg1]
  rw [if_pos (show (0xD1:Nat) &&& 0x10 ≠ 0 by decide)]
  simp only [hg2]
  rw [if_neg (show ¬((0xD1:Nat) &&& 0x08 ≠ 0) by decide)]
  simp only [hslice1, hslice2]
  rw [if_neg (show ¬(asciiDecodeLossy [0x54] ≠ [0x54] ∨ (0x02 :: 0x65 :: 0x6E :: t) = []) by simp [asciiDecodeLossy])]
  simp only
  have hd1 : (decide (((2:Nat) &&& 128) ≠ 0)) = false := by decide
  have hd2 : List.drop (1 + ((2:Nat) &&& 63)) (0x02 :: 0x65 :: 0x6E :: t) = t := rfl
  simp only [hd1, hd2, decodeTextBytes, Bool.false_eq_true, if_false, hdec]
  rw [if_neg hNE]

/-- The encoder's output for language `"en"` and a text of at most 247
bytes, in explicit form. -/
lemma c1_build_step (t : List Nat) (hLen : t.length ≤ 247) :
    build_text_ndef_tlv t langEn =
      some (0x03 :: (t.length + 7) ::
        (([0xD1, 0x01, t.length + 3, 0x54, 0x02, 0x65, 0x6E] ++ t) ++ [0xFE])) := by
  unfold build_text_ndef_tlv
  rw [show langEn.length &&& 0x3F = 0x02 from rfl]
  rw [if_neg (by simp [langEn]; omega)]
  rw [if_neg (by simp [langEn]; omega)]
  simp [langEn]

/-- C1 as amended: for every text of Unicode scalar code points — in
particular, all printable UTF-8 content — whose UTF-8 byte length is at
most 247, that is, 255 − (2 + len("en")) − 4, the extra 4 bytes being
the record header that must also fit the short TLV length byte, and
whose whitespace-trimmed form is non-empty, encoding with language
`"en"`, TLV-wrapping, unwrapping and decoding reconstructs the text
exactly, up to trimming of leading and trailing whitespace. -/
theorem c1_roundTrip_amended (cs : List Nat)
    (hScalar : ∀ c ∈ cs, c ≤ 0x10FFFF ∧ ¬(0xD800 ≤ c ∧ c ≤ 0xDFFF))
    (hLen : (utf8Encode cs).length ≤ 247)
    (hNE : pyStrip cs ≠ []) :
    roundTrip (utf8Encode cs) = some (pyStrip cs) := by
  rw [roundTrip, c1_build_step (utf8Encode cs) hLen]
  simp only
  rw [readNdefText, readNdefTextChecked, c1_scan_step (utf8Encode cs) hLen]
  simp only
  rw [c1_parse_step (utf8Encode cs) cs (utf8DecodeLossy_utf8Encode cs hScalar) hNE]

/-- C1 counterexample: the claim's bound `255 − (2 + len(language)) =
251` is too generous.  A text of 249 printable bytes satisfies every
hypothesis of the claim, yet the round trip cannot reconstruct it:
`build_text_ndef_tlv` raises (`bytes([0x03, len(ndef_record)])` with a
256-byte record), so decoding yields nothing. -/
theorem c1_roundTrip_counterexample :
    (∀ b ∈ List.replicate 249 0x61, 0x20 ≤ b ∧ b ≤ 0x7E) ∧
    (List.replicate 249 0x61).length ≤ 255 - (2 + langEn.length) ∧
    roundTrip (List.replicate 249 0x61) ≠
      some (pyStrip (List.replicate 249 0x61)) := by
  refine ⟨?_, ?_, ?_⟩
  · intro b hb
    rw [List.eq_of_mem_replicate hb]
    omega
  · rw [List.length_replicate]
    norm_num [langEn]
  · have hb : build_text_ndef_tlv (List.replicate 249 0x61) langEn = none := by
      unfold build_text_ndef_tlv
      rw [show langEn.length &&& 0x3F = 0x02 from rfl]
      rw [if_neg (by
        simp only [langEn, List.length_cons, List.length_append,
          List.length_replicate, List.length_nil]
        norm_num)]
      rw [if_pos (by
        simp only [langEn, List.length_cons, List.length_append,
          List.length_replicate, List.length_nil]
        norm_num)]
    rw [roundTrip, hb]
    simp only
    exact fun h => Option.noConfusion h

/-- C1 witness: the non-ASCII one-character text `"é"` (code point
`0xE9`, UTF-8 bytes `C3 A9`) round-trips to itself. -/
theorem c1_roundTrip_amended_witness :
    (∀ c ∈ [0xE9], c ≤ 0x10FFFF ∧ ¬(0xD800 ≤ c ∧ c ≤ 0xDFFF)) ∧
    (utf8Encode [0xE9]).length ≤ 247 ∧ pyStrip [0xE9] ≠ [] ∧
    roundTrip (utf8Encode [0xE9]) = some (pyStrip [0xE9]) :=
  ⟨by decide, by decide, by decide,
    c1_roundTrip_amended [0xE9] (by decide) (by decide) (by decide)⟩

end RfidTag
